import Mathlib

/-!
Shallow embedding of the easybake_dashboard aggregation/enrichment pipeline
(server data-source modules) and proofs of its specified properties.

Conventions used throughout:
* JS numbers that hold integral counts/ids are modeled as `Int`.
* `x ?? d` on a nullable is `Option.getD`; JS string falsiness (`!s` true for
  `""`) is modeled explicitly where the source relies on it.
* Wall-clock instants (`Date.now()`) are `Int` milliseconds.
* Calendar days are `Int` day numbers with `getDay` modeled as `d % 7`,
  `0 = Sunday, …, 5 = Friday, 6 = Saturday` (the epoch day number 0 is
  taken to fall on a Sunday).
-/

namespace EasyBake

namespace Dates

/-- Model of JavaScript `Date.prototype.getDay()` on a day number:
`0 = Sunday, 1 = Monday, …, 6 = Saturday`. -/
def jsGetDay (d : Int) : Int := d % 7

/-- The day offset computed by `getReleaseWeek` (server/tmdb.ts) and
`getUpcomingFriday` (server/musicbrainz.ts): Saturday → `-1` (yesterday),
Sunday → `-2` (last Friday), Monday–Friday → `5 - day` (this week's Friday). -/
def fridayDiff (day : Int) : Int :=
  if day = 6 then -1
  else if day = 0 then -2
  else 5 - day

/-- The release Friday for input day `d`: `d` shifted by `fridayDiff` of its
weekday.  Shared weekday arithmetic of `getReleaseWeek` / `getUpcomingFriday`. -/
def getUpcomingFriday (d : Int) : Int := d + fridayDiff (jsGetDay d)

/-- The start of the 7-day discover window in `getReleaseWeek`: six days
before the computed Friday (the preceding Saturday). -/
def getReleaseWeekStart (d : Int) : Int := getUpcomingFriday d - 6

end Dates

namespace MusicBrainz

/-- `release['release-group']` in the MusicBrainz search response. -/
structure MBReleaseGroup where
  id : String
  primaryType : Option String

/-- One release in the MusicBrainz `/ws/2/release` search response
(the fields server/musicbrainz.ts reads). -/
structure MBRelease where
  id : String
  title : String
  date : Option String
  artistCredit : Option (List String)
  releaseGroup : Option MBReleaseGroup

/-- The normalized album record produced by `fetchUpcomingFridayAlbums`
(server/types.ts `AlbumRelease`); `artistListeners`/`genre` are attached later
by the `/api/music/upcoming` route. -/
structure AlbumRelease where
  id : String
  title : String
  artist : String
  coverUrl : String
  releaseDate : String
  type : String
  fridayDate : String
  artistListeners : Option Int := none
  genre : Option String := none
deriving DecidableEq

/-- The truthy release-group id tested by the dedup loop:
`const rgId = release['release-group']?.id; if (!rgId || …) continue;` —
JS falsiness makes both a missing `release-group` and an empty-string id
fail the guard. -/
def rgIdOf (r : MBRelease) : Option String :=
  match r.releaseGroup with
  | none => none
  | some rg => if rg.id = "" then none else some rg.id

/-- The dedup loop of `fetchUpcomingFridayAlbums` with its `seen` set:
skip a release whose release-group id is falsy or already seen, otherwise
keep it and record its id. -/
def dedupGo (seen : List String) : List MBRelease → List MBRelease
  | [] => []
  | r :: rest =>
    match rgIdOf r with
    | none => dedupGo seen rest
    | some g => if g ∈ seen then dedupGo seen rest else r :: dedupGo (g :: seen) rest

/-- `unique`, the deduplicated release list (seen set starts empty). -/
def dedupReleases (rs : List MBRelease) : List MBRelease := dedupGo [] rs

/-- The `unique.map(release => …)` body building one `AlbumRelease`. -/
def buildAlbum (friday : String) (r : MBRelease) : AlbumRelease :=
  { id := r.id
    title := r.title
    artist := match r.artistCredit with
      | some cs => String.intercalate ", " cs
      | none => "Unknown Artist"
    coverUrl := match rgIdOf r with
      | some g => "https://coverartarchive.org/release-group/" ++ g ++ "/front-500"
      | none => "https://coverartarchive.org/release/" ++ r.id ++ "/front-500"
    releaseDate := r.date.getD friday
    type := (r.releaseGroup.bind (·.primaryType)).getD "Album"
    fridayDate := friday }

/-- `fetchUpcomingFridayAlbums` after the search response arrived: dedup by
release-group id, then map to `AlbumRelease`.  `friday` is the computed
upcoming Friday, `rs` the parsed `data.releases`. -/
def fetchUpcomingFridayAlbums (friday : String) (rs : List MBRelease) : List AlbumRelease :=
  (dedupReleases rs).map (buildAlbum friday)

theorem dedupGo_cons_none {seen : List String} {r : MBRelease} {rest : List MBRelease}
    (hg : rgIdOf r = none) : dedupGo seen (r :: rest) = dedupGo seen rest := by
  simp [dedupGo, hg]

theorem dedupGo_cons_seen {seen : List String} {r : MBRelease} {rest : List MBRelease}
    {g : String} (hg : rgIdOf r = some g) (hmem : g ∈ seen) :
    dedupGo seen (r :: rest) = dedupGo seen rest := by
  simp [dedupGo, hg, hmem]

theorem dedupGo_cons_new {seen : List String} {r : MBRelease} {rest : List MBRelease}
    {g : String} (hg : rgIdOf r = some g) (hmem : g ∉ seen) :
    dedupGo seen (r :: rest) = r :: dedupGo (g :: seen) rest := by
  simp [dedupGo, hg, hmem]

theorem dedupGo_sublist (seen : List String) (l : List MBRelease) :
    List.Sublist (dedupGo seen l) l := by
  induction l generalizing seen with
  | nil => simp [dedupGo]
  | cons r rest ih =>
    cases hg : rgIdOf r with
    | none =>
      rw [dedupGo_cons_none hg]
      exact (ih seen).cons r
    | some g =>
      by_cases hmem : g ∈ seen
      · rw [dedupGo_cons_seen hg hmem]
        exact (ih seen).cons r
      · rw [dedupGo_cons_new hg hmem]
        exact (ih (g :: seen)).cons₂ r

theorem mem_dedupGo {seen : List String} {l : List MBRelease} {r : MBRelease}
    (hr : r ∈ dedupGo seen l) : ∃ g, rgIdOf r = some g ∧ g ∉ seen := by
  induction l generalizing seen with
  | nil => simp [dedupGo] at hr
  | cons a rest ih =>
    cases hg : rgIdOf a with
    | none =>
      rw [dedupGo_cons_none hg] at hr
      exact ih hr
    | some g =>
      by_cases hmem : g ∈ seen
      · rw [dedupGo_cons_seen hg hmem] at hr
        exact ih hr
      · rw [dedupGo_cons_new hg hmem] at hr
        rcases List.mem_cons.mp hr with rfl | hr
        · exact ⟨g, hg, hmem⟩
        · obtain ⟨g', hg', hg'seen⟩ := ih hr
          exact ⟨g', hg', fun h => hg'seen (List.mem_cons_of_mem _ h)⟩

theorem dedupGo_pairwise (seen : List String) (l : List MBRelease) :
    (dedupGo seen l).Pairwise (fun a b => rgIdOf a ≠ rgIdOf b) := by
  induction l generalizing seen with
  | nil => simp [dedupGo]
  | cons a rest ih =>
    cases hg : rgIdOf a with
    | none =>
      rw [dedupGo_cons_none hg]
      exact ih seen
    | some g =>
      by_cases hmem : g ∈ seen
      · rw [dedupGo_cons_seen hg hmem]
        exact ih seen
      · rw [dedupGo_cons_new hg hmem]
        refine List.Pairwise.cons ?_ (ih (g :: seen))
        intro b hb
        obtain ⟨g', hg', hg'seen⟩ := mem_dedupGo hb
        rw [hg, hg']
        intro hcontra
        exact hg'seen (Option.some.inj hcontra ▸ List.mem_cons_self g seen)

theorem dedupGo_first_occurrence {seen : List String} {l : List MBRelease} {r : MBRelease}
    (hr : r ∈ dedupGo seen l) :
    ∃ pre post, l = pre ++ r :: post ∧ ∀ r2 ∈ pre, rgIdOf r2 ≠ rgIdOf r := by
  induction l generalizing seen with
  | nil => simp [dedupGo] at hr
  | cons a rest ih =>
    cases hg : rgIdOf a with
    | none =>
      rw [dedupGo_cons_none hg] at hr
      obtain ⟨g', hg', _⟩ := mem_dedupGo hr
      obtain ⟨pre, post, hsplit, hpre⟩ := ih hr
      refine ⟨a :: pre, post, by simp [hsplit], ?_⟩
      intro r2 hr2
      rcases List.mem_cons.mp hr2 with rfl | hr2
      · rw [hg, hg']; exact fun h => Option.noConfusion h
      · exact hpre r2 hr2
    | some g =>
      by_cases hmem : g ∈ seen
      · rw [dedupGo_cons_seen hg hmem] at hr
        obtain ⟨g', hg', hg'seen⟩ := mem_dedupGo hr
        obtain ⟨pre, post, hsplit, hpre⟩ := ih hr
        refine ⟨a :: pre, post, by simp [hsplit], ?_⟩
        intro r2 hr2
        rcases List.mem_cons.mp hr2 with rfl | hr2
        · rw [hg, hg']
          intro hcontra
          exact hg'seen (Option.some.inj hcontra ▸ hmem)
        · exact hpre r2 hr2
      · rw [dedupGo_cons_new hg hmem] at hr
        rcases List.mem_cons.mp hr with rfl | hr
        · exact ⟨[], rest, rfl, by simp⟩
        · obtain ⟨g', hg', hg'seen⟩ := mem_dedupGo hr
          obtain ⟨pre, post, hsplit, hpre⟩ := ih hr
          refine ⟨a :: pre, post, by simp [hsplit], ?_⟩
          intro r2 hr2
          rcases List.mem_cons.mp hr2 with rfl | hr2
          · rw [hg, hg']
            intro hcontra
            exact hg'seen (Option.some.inj hcontra ▸ List.mem_cons_self g seen)
          · exact hpre r2 hr2

theorem rgIdOf_ne_empty {r : MBRelease} {g : String} (hg : rgIdOf r = some g) :
    g ≠ "" := by
  unfold rgIdOf at hg
  cases hrg : r.releaseGroup with
  | none => simp [hrg] at hg
  | some rg =>
    simp only [hrg] at hg
    by_cases he : rg.id = ""
    · simp [he] at hg
    · rw [if_neg he] at hg
      exact Option.some.inj hg ▸ he

end MusicBrainz

end EasyBake

namespace EasyBake

/-- C5: the album adapter's deduplication keeps at most one release per
release-group identifier (pairwise distinct truthy release-group ids in the
output), keeps releases in upstream order (the output is a sublist of the
input), every kept release is the first occurrence of its release-group id
(no earlier input release shares it), and two releases sharing release-group
id "RG1" yield exactly one AlbumRelease, built from the first. -/
theorem c5_dedup_by_release_group_first_wins :
    (∀ rs : List MusicBrainz.MBRelease,
        List.Sublist (MusicBrainz.dedupReleases rs) rs) ∧
    (∀ rs : List MusicBrainz.MBRelease,
        (MusicBrainz.dedupReleases rs).Pairwise
          (fun a b => MusicBrainz.rgIdOf a ≠ MusicBrainz.rgIdOf b)) ∧
    (∀ rs : List MusicBrainz.MBRelease, ∀ r ∈ MusicBrainz.dedupReleases rs,
        ∃ pre post, rs = pre ++ r :: post ∧
          ∀ r2 ∈ pre, MusicBrainz.rgIdOf r2 ≠ MusicBrainz.rgIdOf r) ∧
    (∀ (friday : String) (r1 r2 : MusicBrainz.MBRelease),
        MusicBrainz.rgIdOf r1 = some "RG1" → MusicBrainz.rgIdOf r2 = some "RG1" →
        MusicBrainz.fetchUpcomingFridayAlbums friday [r1, r2] =
          [MusicBrainz.buildAlbum friday r1]) := by
  refine ⟨fun rs => MusicBrainz.dedupGo_sublist [] rs,
    fun rs => MusicBrainz.dedupGo_pairwise [] rs,
    fun rs r hr => MusicBrainz.dedupGo_first_occurrence hr,
    fun friday r1 r2 h1 h2 => ?_⟩
  unfold MusicBrainz.fetchUpcomingFridayAlbums MusicBrainz.dedupReleases
  rw [MusicBrainz.dedupGo_cons_new h1 (by simp),
    MusicBrainz.dedupGo_cons_seen h2 (by simp)]
  simp [MusicBrainz.dedupGo]

/-- C10: a release whose release-group id is absent (or falsy) never appears
in the deduplicated list, so it is excluded from the adapter's output
entirely; every returned AlbumRelease has a cover URL built from its
(non-empty) release-group id; a release with a missing date is mapped with
the computed Friday as its releaseDate; and being kept does not depend on the
date (every deduplicated release is mapped into the output). -/
theorem c10_albums_require_release_group :
    (∀ r : MusicBrainz.MBRelease, MusicBrainz.rgIdOf r = none →
        ∀ rs, r ∉ MusicBrainz.dedupReleases rs) ∧
    (∀ (friday : String) (rs : List MusicBrainz.MBRelease),
        ∀ a ∈ MusicBrainz.fetchUpcomingFridayAlbums friday rs,
        ∃ g, g ≠ "" ∧
          a.coverUrl = "https://coverartarchive.org/release-group/" ++ g ++ "/front-500") ∧
    (∀ (friday : String) (r : MusicBrainz.MBRelease), r.date = none →
        (MusicBrainz.buildAlbum friday r).releaseDate = friday) ∧
    (∀ (friday : String) (rs : List MusicBrainz.MBRelease)
        (r : MusicBrainz.MBRelease), r ∈ MusicBrainz.dedupReleases rs →
        MusicBrainz.buildAlbum friday r ∈
          MusicBrainz.fetchUpcomingFridayAlbums friday rs) := by
  refine ⟨?_, ?_, ?_, ?_⟩
  · intro r hnone rs hr
    obtain ⟨g, hg, _⟩ := MusicBrainz.mem_dedupGo hr
    rw [hnone] at hg
    exact Option.noConfusion hg
  · intro friday rs a ha
    obtain ⟨r, hr, rfl⟩ := List.mem_map.mp ha
    obtain ⟨g, hg, _⟩ := MusicBrainz.mem_dedupGo hr
    exact ⟨g, MusicBrainz.rgIdOf_ne_empty hg, by simp [MusicBrainz.buildAlbum, hg]⟩
  · intro friday r hdate
    simp [MusicBrainz.buildAlbum, hdate]
  · intro friday rs r hr
    exact List.mem_map_of_mem _ hr

end EasyBake

namespace EasyBake

end EasyBake

namespace EasyBake

namespace Steam

/-- One item of the storefront search response (`data.items[...]`). -/
structure SteamItem where
  id : Int
  name : String

/-- The outcome of the storefront search request in `searchSteamAppId`:
`failure` is a non-2xx response or a thrown/timed-out fetch (both return
null in the source); `ok` carries the parsed body, whose `items` field is
optional. -/
inductive SearchOutcome where
  | failure
  | ok (total : Int) (items : Option (List SteamItem))

/-- The normalized game record (server/types.ts `GameRelease`), with the
enrichment fields of `GameReleaseWithReviews` attached by the
`/api/gaming/releases` route; `hypes`/`follows` are read with `?? 0`. -/
structure GameRelease where
  id : Int
  name : String
  coverUrl : Option String
  platforms : List String
  steamAppId : Option String
  websiteUrl : Option String
  hypes : Option Int
  follows : Option Int
  steamReviews : Option String := none
  steamDescription : Option String := none

/-- `PC_PLATFORMS` (server/steam.ts). -/
def PC_PLATFORMS : List String := ["pc (microsoft windows)", "mac", "linux"]

/-- `isPcGame`: some platform, lowercased, is in the fixed PC set. -/
def isPcGame (g : GameRelease) : Bool :=
  g.platforms.any (fun p => PC_PLATFORMS.contains p.toLower)

/-- `searchSteamAppId` after its fetch resolved: null on failure or an
empty/missing item list; otherwise the exact case-insensitive name match's
id, else the first hit's id (both stringified). -/
def searchSteamAppId (gameName : String) (resp : SearchOutcome) : Option String :=
  match resp with
  | .failure => none
  | .ok _ items =>
    match items with
    | none => none
    | some [] => none
    | some (first :: rest) =>
      match (first :: rest).find? (fun it => it.name.toLower == gameName.toLower) with
      | some m => some (toString m.id)
      | none => some (toString first.id)

/-- The effect of `backfillSteamAppIds` on one game: searched only when its
store id is null and it is a PC game (`needsSearch`), updated only when the
search produced a (truthy) id.  The source mutates the array elements in
place; the model returns the updated record. -/
def backfillOne (search : String → SearchOutcome) (g : GameRelease) : GameRelease :=
  if g.steamAppId = none ∧ isPcGame g then
    match searchSteamAppId g.name (search g.name) with
    | some appId => { g with steamAppId := some appId }
    | none => g
  else g

def backfillSteamAppIds (search : String → SearchOutcome) (games : List GameRelease) :
    List GameRelease :=
  games.map (backfillOne search)

end Steam

namespace Lastfm

/-- The per-artist record cached by server/lastfm.ts. -/
structure ArtistInfo where
  listeners : Option Int
  genre : Option String
deriving DecidableEq

/-- The outcome of the artist.getinfo request in `fetchArtistInfo`:
`failure` is a non-2xx response or a thrown/timed-out fetch (both paths
cache the null result); `ok` carries the optional fields the source reads
from the body. -/
inductive UpstreamOutcome where
  | failure
  | ok (listeners : Option String) (topTag : Option String)

/-- `nullResult`. -/
def nullResult : ArtistInfo := { listeners := none, genre := none }

/-- The listener-count parse: `listeners ? parseInt(listeners, 10) : null`
guarded by `count !== null && !isNaN(count)` — a missing or falsy (empty)
string gives null, and `parseInt` is modeled as a full-string integer parse
whose failure is the NaN branch. -/
def parseListeners (listeners : Option String) : Option Int :=
  match listeners with
  | none => none
  | some s => if s = "" then none else s.toInt?

/-- `cache.get` on the insertion-ordered association list modeling the Map. -/
def cacheGet (c : List (String × ArtistInfo)) (k : String) : Option ArtistInfo :=
  (c.find? (fun e => e.1 == k)).map (fun e => e.2)

/-- `cache.set`: overwrite the entry for the key or append a new one. -/
def cacheSet (c : List (String × ArtistInfo)) (k : String) (v : ArtistInfo) :
    List (String × ArtistInfo) :=
  match c with
  | [] => [(k, v)]
  | e :: rest => if e.1 = k then (k, v) :: rest else e :: cacheSet rest k v

/-- `fetchArtistInfo` for one artist: a cache hit (on the lowercased name)
returns the stored record without any upstream call; a miss issues the call
(the returned Bool), caches the null result on failure and the parsed result
on success, and returns what it cached.  Returns
(result, new cache, upstream call issued). -/
def fetchArtistInfo (upstream : String → UpstreamOutcome)
    (cache : List (String × ArtistInfo)) (artist : String) :
    ArtistInfo × List (String × ArtistInfo) × Bool :=
  let cacheKey := artist.toLower
  match cacheGet cache cacheKey with
  | some v => (v, cache, false)
  | none =>
    match upstream artist with
    | .failure => (nullResult, cacheSet cache cacheKey nullResult, true)
    | .ok listeners topTag =>
      let result : ArtistInfo := { listeners := parseListeners listeners, genre := topTag }
      (result, cacheSet cache cacheKey result, true)

theorem cacheGet_cacheSet (c : List (String × ArtistInfo)) (k : String) (v : ArtistInfo) :
    cacheGet (cacheSet c k v) k = some v := by
  induction c with
  | nil => simp [cacheGet, cacheSet]
  | cons e rest ih =>
    by_cases he : e.1 = k
    · simp [cacheGet, cacheSet, he]
    · simp only [cacheSet, if_neg he]
      show cacheGet (e :: cacheSet rest k v) k = some v
      simp only [cacheGet, List.find?, beq_eq_false_iff_ne.mpr he]
      exact ih

/-- After any `fetchArtistInfo` run, the lowercased artist name maps to the
run's result in the resulting cache. -/
theorem fetchArtistInfo_caches (upstream : String → UpstreamOutcome)
    (cache : List (String × ArtistInfo)) (artist : String) :
    cacheGet (fetchArtistInfo upstream cache artist).2.1 artist.toLower =
      some (fetchArtistInfo upstream cache artist).1 := by
  simp only [fetchArtistInfo]
  cases hc : cacheGet cache artist.toLower with
  | some v => exact hc
  | none =>
    cases upstream artist with
    | failure => exact cacheGet_cacheSet cache artist.toLower nullResult
    | ok listeners topTag => exact cacheGet_cacheSet cache artist.toLower _

/-- A cache hit returns the stored record, leaves the cache unchanged and
issues no upstream call. -/
theorem fetchArtistInfo_hit {upstream : String → UpstreamOutcome}
    {c : List (String × ArtistInfo)} {artist : String} {v : ArtistInfo}
    (h : cacheGet c artist.toLower = some v) :
    fetchArtistInfo upstream c artist = (v, c, false) := by
  simp only [fetchArtistInfo, h]

/-- A cache miss whose upstream call fails caches and returns the null
result, with an upstream call issued. -/
theorem fetchArtistInfo_miss_failure {upstream : String → UpstreamOutcome}
    {c : List (String × ArtistInfo)} {artist : String}
    (hmiss : cacheGet c artist.toLower = none)
    (hfail : upstream artist = UpstreamOutcome.failure) :
    fetchArtistInfo upstream c artist =
      (nullResult, cacheSet c artist.toLower nullResult, true) := by
  simp only [fetchArtistInfo, hmiss, hfail]

end Lastfm

namespace RateLimit

/-- The window prune of `rateLimit()` (server/lastfm.ts): the leading
timestamps strictly older than `now - 1000` are shifted off. -/
def pruneWindow (now : Int) (ts : List Int) : List Int :=
  ts.dropWhile (fun t => decide (t < now - 1000))

/-- One `rateLimit()` call entered at instant `now`: prune the window; at
capacity (5 recorded timestamps) wait `oldest + 1000 - now` ms so the call
completes when the oldest timestamp leaves the window; record a timestamp at
the completion instant (`Date.now()` runs after the wait).  Returns
(completion instant, new window). -/
def rateLimit (now : Int) (ts : List Int) : Int × List Int :=
  let pruned := pruneWindow now ts
  if 5 ≤ pruned.length then
    let oldest := pruned.headD 0
    let waitMs := oldest + 1000 - now
    let done := now + waitMs
    (done, pruned ++ [done])
  else
    (now, pruned ++ [now])

/-- `n` `rateLimit()` calls issued in immediate succession (all entering at
instant `t0`), run in order against the shared window — the source's
cooperative concurrency interleaves no other mutation between the calls.
Returns (completion instants in issue order, final window). -/
def runAcquires (t0 : Int) : Nat → List Int × List Int
  | 0 => ([], [])
  | n + 1 =>
    let prev := runAcquires t0 n
    let step := rateLimit t0 prev.2
    (prev.1 ++ [step.1], step.2)

end RateLimit

namespace Tmdb

/-- One movie of a TMDB list response (the fields server/tmdb.ts reads). -/
structure TMDBMovie where
  id : Int
  title : String
  posterPath : Option String
  releaseDate : String
  overview : String
  popularity : Int
  genreIds : List Int

/-- One `crew` entry of a TMDB credits response. -/
structure CrewMember where
  id : Int
  job : String
  name : String

/-- One `cast` entry of a TMDB credits response. -/
structure CastMember where
  name : String
  order : Int

/-- A TMDB credits payload. -/
structure Credits where
  crew : List CrewMember
  cast : List CastMember

/-- The normalized movie record (server/types.ts `MovieRelease`). -/
structure MovieRelease where
  id : Int
  title : String
  posterUrl : Option String
  releaseDate : String
  director : Option String
  directorId : Option Int
  cast : List String
  overview : String
  tmdbUrl : String
  fridayDate : String
  revenue : Option Int
  popularity : Option Int := none
  isHorror : Bool

/-- `credits.crew.find((c) => c.job === 'Director')`. -/
def findDirector (crew : List CrewMember) : Option CrewMember :=
  crew.find? (fun c => c.job == "Director")

/-- The cast comparator `(a, b) => a.order - b.order` (ascending order). -/
def castLe (a b : CastMember) : Prop := a.order ≤ b.order

instance : DecidableRel castLe := fun _ _ => Int.decLe _ _

/-- `credits.cast.sort(by order).slice(0, 4).map((c) => c.name)`. -/
def sortedCastNames (cast : List CastMember) : List String :=
  ((List.insertionSort castLe cast).take 4).map (fun c => c.name)

/-- The fate of one per-movie credits fetch in `fetchUpcomingFridayMovies`:
`exception` is a thrown fetch (a rejected allSettled slot), `httpError` a
non-2xx response (a fulfilled slot carrying nulls), `ok` a parsed body. -/
inductive CreditsOutcome where
  | exception
  | httpError
  | ok (credits : Credits)

/-- The fate of one per-movie detail fetch in `fetchNowPlayingMovies`:
as for credits, with the `ok` body carrying optional revenue and credits. -/
inductive DetailOutcome where
  | exception
  | httpError
  | ok (revenue : Option Int) (credits : Option Credits)

/-- The record built for one movie of the upcoming-Friday feed: nulls when
its credits slot was rejected or carried an HTTP error, the parsed director
(first crew entry with job Director) and first four billed cast otherwise;
`revenue` is always null in this feed. -/
def buildUpcomingMovie (friday : String) (movie : TMDBMovie)
    (outcome : CreditsOutcome) : MovieRelease :=
  let credits : Option String × Option Int × List String :=
    match outcome with
    | .exception => (none, none, [])
    | .httpError => (none, none, [])
    | .ok c => ((findDirector c.crew).map (fun d => d.name),
        (findDirector c.crew).map (fun d => d.id), sortedCastNames c.cast)
  { id := movie.id
    title := movie.title
    posterUrl := movie.posterPath.map (fun p => "https://image.tmdb.org/t/p/w500" ++ p)
    releaseDate := movie.releaseDate
    director := credits.1
    directorId := credits.2.1
    cast := credits.2.2
    overview := movie.overview
    tmdbUrl := "https://www.themoviedb.org/movie/" ++ toString movie.id
    fridayDate := friday
    revenue := none
    isHorror := movie.genreIds.contains 27 }

/-- The record built for one movie of the now-playing feed: nulls when its
detail slot was rejected or carried an HTTP error; otherwise director/cast
parsed from the optional credits (`?? []` for cast) and `revenue` kept only
when positive. -/
def buildNowPlayingMovie (movie : TMDBMovie) (outcome : DetailOutcome) : MovieRelease :=
  let detail : Option String × Option Int × List String × Option Int :=
    match outcome with
    | .exception => (none, none, [], none)
    | .httpError => (none, none, [], none)
    | .ok revenue credits =>
      let directorEntry := credits.bind (fun c => findDirector c.crew)
      (directorEntry.map (fun d => d.name), directorEntry.map (fun d => d.id),
        (match credits with
         | some c => sortedCastNames c.cast
         | none => []),
        (match revenue with
         | some v => if 0 < v then some v else none
         | none => none))
  { id := movie.id
    title := movie.title
    posterUrl := movie.posterPath.map (fun p => "https://image.tmdb.org/t/p/w500" ++ p)
    releaseDate := movie.releaseDate
    director := detail.1
    directorId := detail.2.1
    cast := detail.2.2.1
    overview := movie.overview
    tmdbUrl := "https://www.themoviedb.org/movie/" ++ toString movie.id
    fridayDate := ""
    revenue := detail.2.2.2
    popularity := some movie.popularity
    isHorror := movie.genreIds.contains 27 }

/-- `movies.map((movie, i) => …)` consulting the settled result at index
`i`: positional pairing with the outcome list, a missing slot read as the
default (a rejected slot reads the same as an absent one in the source's
`creditResult?.status === 'fulfilled'` check). -/
def mapWithOutcomes {α β : Type} (dflt : α) (f : TMDBMovie → α → β) :
    List TMDBMovie → List α → List β
  | [], _ => []
  | m :: ms, [] => f m dflt :: mapWithOutcomes dflt f ms []
  | m :: ms, o :: os => f m o :: mapWithOutcomes dflt f ms os

/-- `fetchUpcomingFridayMovies` after the discover response and the settled
per-movie credits arrived. -/
def fetchUpcomingFridayMovies (friday : String) (movies : List TMDBMovie)
    (outcomes : List CreditsOutcome) : List MovieRelease :=
  mapWithOutcomes CreditsOutcome.exception (buildUpcomingMovie friday) movies outcomes

/-- `results` of `fetchNowPlayingMovies`: the enrichment batch's output, in
primary-list order, before the staleness sort. -/
def nowPlayingResults (movies : List TMDBMovie) (outcomes : List DetailOutcome) :
    List MovieRelease :=
  mapWithOutcomes DetailOutcome.exception buildNowPlayingMovie movies outcomes

/-- The final now-playing comparator: stale titles (release date older than
six months, decided by the `old` predicate for the run's fixed cutoff) sink,
then descending popularity. -/
def nowPlayingCmp (old : String → Bool) (a b : MovieRelease) : Int :=
  let aOld : Int := if old a.releaseDate then 1 else 0
  let bOld : Int := if old b.releaseDate then 1 else 0
  if aOld ≠ bOld then aOld - bOld
  else b.popularity.getD 0 - a.popularity.getD 0

def nowPlayingLe (old : String → Bool) (a b : MovieRelease) : Prop :=
  nowPlayingCmp old a b ≤ 0

instance (old : String → Bool) : DecidableRel (nowPlayingLe old) :=
  fun _ _ => Int.decLe _ _

/-- `results.sort(...)` of the now-playing feed. -/
def sortNowPlaying (old : String → Bool) (l : List MovieRelease) : List MovieRelease :=
  List.insertionSort (nowPlayingLe old) l

theorem mapWithOutcomes_length {α β : Type} (dflt : α) (f : TMDBMovie → α → β)
    (movies : List TMDBMovie) (outcomes : List α) :
    (mapWithOutcomes dflt f movies outcomes).length = movies.length := by
  induction movies generalizing outcomes with
  | nil => cases outcomes <;> simp [mapWithOutcomes]
  | cons m ms ih => cases outcomes <;> simp [mapWithOutcomes, ih]

theorem mapWithOutcomes_getElem? {α β : Type} (dflt : α) (f : TMDBMovie → α → β)
    (movies : List TMDBMovie) (outcomes : List α) (i : Nat) :
    (mapWithOutcomes dflt f movies outcomes)[i]? =
      (movies[i]?).map (fun m => f m ((outcomes[i]?).getD dflt)) := by
  induction movies generalizing outcomes i with
  | nil => cases outcomes <;> simp [mapWithOutcomes]
  | cons m ms ih =>
    cases outcomes with
    | nil =>
      cases i with
      | zero => simp [mapWithOutcomes]
      | succ j => simpa [mapWithOutcomes] using ih [] j
    | cons o os =>
      cases i with
      | zero => simp [mapWithOutcomes]
      | succ j => simpa [mapWithOutcomes] using ih os j

end Tmdb

namespace ServerIndex

/-- Model of `String.prototype.localeCompare`'s sign contract, with the
locale collation taken to be the code-point order on strings: negative when
the receiver sorts first, positive when the argument does, zero on ties. -/
def localeCompare (a b : String) : Int :=
  if a < b then -1 else if b < a then 1 else 0

/-- The `/api/music/upcoming` album comparator: known-listener albums first,
then descending listener count, then alphabetical artist among the rest. -/
def albumCmp (a b : MusicBrainz.AlbumRelease) : Int :=
  let aHas := a.artistListeners.isSome
  let bHas := b.artistListeners.isSome
  if aHas && !bHas then -1
  else if !aHas && bHas then 1
  else if aHas && bHas then b.artistListeners.getD 0 - a.artistListeners.getD 0
  else localeCompare a.artist b.artist

/-- `albums.sort(cmp)` sorts into the order where `cmp a b ≤ 0` (modeled as a
stable insertion sort consistent with the comparator). -/
def albumLe (a b : MusicBrainz.AlbumRelease) : Prop := albumCmp a b ≤ 0

instance : DecidableRel albumLe := fun _ _ => Int.decLe _ _

def sortAlbums (l : List MusicBrainz.AlbumRelease) : List MusicBrainz.AlbumRelease :=
  List.insertionSort albumLe l

/-- The `/api/gaming/releases` comparator: descending combined popularity
(`(hypes ?? 0) + (follows ?? 0)`), ties by ascending locale name order. -/
def gameCmp (a b : Steam.GameRelease) : Int :=
  let aPopularity := a.hypes.getD 0 + a.follows.getD 0
  let bPopularity := b.hypes.getD 0 + b.follows.getD 0
  if aPopularity ≠ bPopularity then bPopularity - aPopularity
  else localeCompare a.name b.name

def gameLe (a b : Steam.GameRelease) : Prop := gameCmp a b ≤ 0

instance : DecidableRel gameLe := fun _ _ => Int.decLe _ _

def sortGames (l : List Steam.GameRelease) : List Steam.GameRelease :=
  List.insertionSort gameLe l

/-- The dismissal filter of both routes:
`enriched.filter((g) => !dismissed.has(String(g.id)))`, with the persisted
set string-compared.  `idStr` models `String(g.id)`. -/
def filterDismissed {α : Type} (idStr : α → String) (dismissed : List String)
    (items : List α) : List α :=
  items.filter (fun x => !(dismissed.contains (idStr x)))

/-- The pairwise order the spec ascribes to the album sort: listener-data
albums precede data-less ones, listener counts are non-increasing, and
data-less albums are in alphabetical artist order. -/
def albumOrdered (a b : MusicBrainz.AlbumRelease) : Prop :=
  (b.artistListeners.isSome = true → a.artistListeners.isSome = true) ∧
  (∀ x y : Int, a.artistListeners = some x → b.artistListeners = some y → y ≤ x) ∧
  (a.artistListeners = none → b.artistListeners = none → a.artist ≤ b.artist)

/-- The pairwise order the spec ascribes to the game sort: combined
popularity is non-increasing, ties are in ascending name order. -/
def gameOrdered (a b : Steam.GameRelease) : Prop :=
  b.hypes.getD 0 + b.follows.getD 0 ≤ a.hypes.getD 0 + a.follows.getD 0 ∧
  (a.hypes.getD 0 + a.follows.getD 0 = b.hypes.getD 0 + b.follows.getD 0 →
    a.name ≤ b.name)

theorem localeCompare_le_iff (a b : String) : localeCompare a b ≤ 0 ↔ a ≤ b := by
  unfold localeCompare
  rcases lt_trichotomy a b with h | h | h
  · simp [h, le_of_lt h]
  · simp [h]
  · have h1 : ¬a < b := not_lt.mpr h.le
    rw [if_neg h1, if_pos h]
    simp [not_le.mpr h]

instance : IsTotal MusicBrainz.AlbumRelease albumLe := by
  constructor
  intro a b
  unfold albumLe albumCmp
  rcases ha : a.artistListeners with _ | x <;> rcases hb : b.artistListeners with _ | y <;>
    simp [ha, hb, localeCompare_le_iff]
  · exact le_total _ _
  · omega

instance : IsTrans MusicBrainz.AlbumRelease albumLe := by
  constructor
  intro a b c hab hbc
  unfold albumLe albumCmp at hab hbc ⊢
  rcases ha : a.artistListeners with _ | x <;> rcases hb : b.artistListeners with _ | y <;>
    rcases hc : c.artistListeners with _ | z <;>
    simp [ha, hb, hc, localeCompare_le_iff] at hab hbc ⊢
  · exact le_trans hab hbc
  · omega

theorem albumLe_imp_ordered {a b : MusicBrainz.AlbumRelease} (h : albumLe a b) :
    albumOrdered a b := by
  unfold albumLe albumCmp at h
  unfold albumOrdered
  rcases ha : a.artistListeners with _ | x <;> rcases hb : b.artistListeners with _ | y <;>
    simp [ha, hb, localeCompare_le_iff] at h ⊢
  · exact h
  · omega

theorem gameLe_iff (a b : Steam.GameRelease) :
    gameLe a b ↔
      (b.hypes.getD 0 + b.follows.getD 0 < a.hypes.getD 0 + a.follows.getD 0 ∨
        (a.hypes.getD 0 + a.follows.getD 0 = b.hypes.getD 0 + b.follows.getD 0 ∧
          a.name ≤ b.name)) := by
  simp only [gameLe, gameCmp]
  by_cases h : a.hypes.getD 0 + a.follows.getD 0 = b.hypes.getD 0 + b.follows.getD 0
  · simp [h, localeCompare_le_iff]
  · rw [if_pos h]
    constructor
    · intro hle
      exact Or.inl (by omega)
    · rintro (hlt | ⟨heq, _⟩)
      · omega
      · exact absurd heq h

instance : IsTotal Steam.GameRelease gameLe := by
  constructor
  intro a b
  rw [gameLe_iff, gameLe_iff]
  by_cases hp : a.hypes.getD 0 + a.follows.getD 0 = b.hypes.getD 0 + b.follows.getD 0
  · rcases le_total a.name b.name with h | h
    · exact Or.inl (Or.inr ⟨hp, h⟩)
    · exact Or.inr (Or.inr ⟨hp.symm, h⟩)
  · rcases lt_or_le (b.hypes.getD 0 + b.follows.getD 0) (a.hypes.getD 0 + a.follows.getD 0)
      with h | h
    · exact Or.inl (Or.inl h)
    · exact Or.inr (Or.inl (by omega))

instance : IsTrans Steam.GameRelease gameLe := by
  constructor
  intro a b c hab hbc
  rw [gameLe_iff] at hab hbc ⊢
  rcases hab with h1 | ⟨h1, h1n⟩ <;> rcases hbc with h2 | ⟨h2, h2n⟩
  · exact Or.inl (by omega)
  · exact Or.inl (by omega)
  · exact Or.inl (by omega)
  · exact Or.inr ⟨by omega, le_trans h1n h2n⟩

theorem gameLe_imp_ordered {a b : Steam.GameRelease} (h : gameLe a b) :
    gameOrdered a b := by
  rw [gameLe_iff] at h
  unfold gameOrdered
  rcases h with h | ⟨heq, hname⟩
  · exact ⟨by omega, fun hcontra => absurd hcontra (by omega)⟩
  · exact ⟨le_of_eq heq.symm, fun _ => hname⟩

/-- A minimal album record for concrete sort scenarios. -/
def mkAlbum (artist : String) (listeners : Option Int) : MusicBrainz.AlbumRelease :=
  { id := "", title := "", artist := artist, coverUrl := "", releaseDate := "",
    type := "", fridayDate := "", artistListeners := listeners }

end ServerIndex

theorem backfillOne_spec (search : String → Steam.SearchOutcome) (g : Steam.GameRelease) :
    (Steam.backfillOne search g).steamAppId = none →
      ¬Steam.isPcGame (Steam.backfillOne search g) = true ∨
        Steam.searchSteamAppId (Steam.backfillOne search g).name
          (search (Steam.backfillOne search g).name) = none := by
  unfold Steam.backfillOne
  by_cases hcond : g.steamAppId = none ∧ Steam.isPcGame g
  · rw [if_pos hcond]
    cases hres : Steam.searchSteamAppId g.name (search g.name) with
    | none =>
      intro _
      exact Or.inr hres
    | some appId =>
      intro hnone
      simp at hnone
  · rw [if_neg hcond]
    intro hnone
    left
    intro hpc
    exact hcond ⟨hnone, hpc⟩

end EasyBake

namespace EasyBake

/-- C3: the release-Friday computation shared by the movie and album pipelines
always lands on a Friday; a Monday–Friday input maps to the Friday of the same
week (at distance `5 - weekday`, never before the input); a Friday input maps
to itself; a Saturday input maps to the previous day; a Sunday input maps to
two days prior. -/
theorem c3_release_friday_computation (d : Int) :
    Dates.jsGetDay (Dates.getUpcomingFriday d) = 5 ∧
    (1 ≤ Dates.jsGetDay d ∧ Dates.jsGetDay d ≤ 5 →
      Dates.getUpcomingFriday d = d + (5 - Dates.jsGetDay d) ∧
      d ≤ Dates.getUpcomingFriday d ∧ Dates.getUpcomingFriday d ≤ d + 4) ∧
    (Dates.jsGetDay d = 5 → Dates.getUpcomingFriday d = d) ∧
    (Dates.jsGetDay d = 6 → Dates.getUpcomingFriday d = d - 1) ∧
    (Dates.jsGetDay d = 0 → Dates.getUpcomingFriday d = d - 2) := by
  unfold Dates.getUpcomingFriday Dates.fridayDiff Dates.jsGetDay
  have h7 : d % 7 = 0 ∨ d % 7 = 1 ∨ d % 7 = 2 ∨ d % 7 = 3 ∨ d % 7 = 4 ∨
      d % 7 = 5 ∨ d % 7 = 6 := by omega
  rcases h7 with h | h | h | h | h | h | h <;> rw [h] <;> norm_num <;> omega

/-- C2: after store-ID backfill, a game whose steamAppId is still null is
either outside the fixed PC-platform set or its store search yielded no
result; and on a non-empty search item list, the search yields the exact
case-insensitive name match's id when one exists, else the first hit's id. -/
theorem c2_steam_backfill_null_id :
    (∀ (search : String → Steam.SearchOutcome) (games : List Steam.GameRelease),
      ∀ g ∈ Steam.backfillSteamAppIds search games, g.steamAppId = none →
        ¬Steam.isPcGame g = true ∨
          Steam.searchSteamAppId g.name (search g.name) = none) ∧
    (∀ (gameName : String) (total : Int) (first : Steam.SteamItem)
        (rest : List Steam.SteamItem),
      (∃ m, (first :: rest).find? (fun it => it.name.toLower == gameName.toLower) = some m ∧
          Steam.searchSteamAppId gameName
              (Steam.SearchOutcome.ok total (some (first :: rest))) =
            some (toString m.id)) ∨
      ((first :: rest).find? (fun it => it.name.toLower == gameName.toLower) = none ∧
          Steam.searchSteamAppId gameName
              (Steam.SearchOutcome.ok total (some (first :: rest))) =
            some (toString first.id))) := by
  constructor
  · intro search games g hg
    obtain ⟨g0, _, rfl⟩ := List.mem_map.mp hg
    exact backfillOne_spec search g0
  · intro gameName total first rest
    cases hfind : (first :: rest).find? (fun it => it.name.toLower == gameName.toLower) with
    | some m =>
      left
      exact ⟨m, rfl, by simp [Steam.searchSteamAppId, hfind]⟩
    | none =>
      right
      exact ⟨rfl, by simp [Steam.searchSteamAppId, hfind]⟩

/-- C4: the album sort places listener-data albums before data-less ones,
orders listener-data albums by non-increasing listener count and data-less
ones alphabetically by artist, never drops or duplicates an album
(permutation of the input), and sorts the spec's concrete scenario
[A/null, B/500, C/null] to B, A, C. -/
theorem c4_album_sort_order :
    (∀ l : List MusicBrainz.AlbumRelease,
        (ServerIndex.sortAlbums l).Pairwise ServerIndex.albumOrdered ∧
        List.Perm (ServerIndex.sortAlbums l) l) ∧
    ServerIndex.sortAlbums
        [ServerIndex.mkAlbum "A" none, ServerIndex.mkAlbum "B" (some 500),
          ServerIndex.mkAlbum "C" none] =
      [ServerIndex.mkAlbum "B" (some 500), ServerIndex.mkAlbum "A" none,
        ServerIndex.mkAlbum "C" none] := by
  constructor
  · intro l
    constructor
    · exact List.Pairwise.imp (fun h => ServerIndex.albumLe_imp_ordered h)
        (List.sorted_insertionSort ServerIndex.albumLe l)
    · exact List.perm_insertionSort ServerIndex.albumLe l
  · have hBC : ServerIndex.albumLe (ServerIndex.mkAlbum "B" (some 500))
        (ServerIndex.mkAlbum "C" none) := by
      simp [ServerIndex.albumLe, ServerIndex.albumCmp, ServerIndex.mkAlbum]
    have hAB : ¬ServerIndex.albumLe (ServerIndex.mkAlbum "A" none)
        (ServerIndex.mkAlbum "B" (some 500)) := by
      simp [ServerIndex.albumLe, ServerIndex.albumCmp, ServerIndex.mkAlbum]
    have hAC : ServerIndex.albumLe (ServerIndex.mkAlbum "A" none)
        (ServerIndex.mkAlbum "C" none) := by
      simp only [ServerIndex.albumLe, ServerIndex.albumCmp, ServerIndex.mkAlbum,
        Option.isSome_none, Bool.false_and, Bool.and_false, Bool.not_false,
        Bool.true_and, Bool.and_true, if_false, Bool.false_eq_true, if_neg]
      rw [ServerIndex.localeCompare_le_iff]
      exact String.le_iff_toList_le.mpr (by decide)
    simp [ServerIndex.sortAlbums, hBC, hAB, hAC]

/-- C8: the game pipeline's final sort orders by non-increasing combined
popularity (hypes + follows, absent read as 0), breaks exact-popularity ties
by ascending name order, and is a permutation of its input. -/
theorem c8_game_sort_order (l : List Steam.GameRelease) :
    (ServerIndex.sortGames l).Pairwise ServerIndex.gameOrdered ∧
    List.Perm (ServerIndex.sortGames l) l := by
  constructor
  · exact List.Pairwise.imp (fun h => ServerIndex.gameLe_imp_ordered h)
      (List.sorted_insertionSort ServerIndex.gameLe l)
  · exact List.perm_insertionSort ServerIndex.gameLe l

/-- C9: the dismissal filter keeps exactly the items whose stringified id is
not in the dismissed set, preserves relative order (its output is a sublist
of its input), and is idempotent for a fixed dismissed set. -/
theorem c9_dismissal_filter_exact_idempotent (α : Type) (idStr : α → String)
    (dismissed : List String) (items : List α) :
    (∀ x, x ∈ ServerIndex.filterDismissed idStr dismissed items ↔
        (x ∈ items ∧ idStr x ∉ dismissed)) ∧
    List.Sublist (ServerIndex.filterDismissed idStr dismissed items) items ∧
    ServerIndex.filterDismissed idStr dismissed
        (ServerIndex.filterDismissed idStr dismissed items) =
      ServerIndex.filterDismissed idStr dismissed items := by
  refine ⟨?_, ?_, ?_⟩
  · intro x
    simp [ServerIndex.filterDismissed, List.mem_filter]
  · exact List.filter_sublist _
  · simp [ServerIndex.filterDismissed, List.filter_filter]

/-- C1: for both movie feeds the enrichment batch returns exactly one record
per primary-list movie, in primary-list order, each depending only on its
own movie and its own settled fetch slot (so sibling failures cannot touch
it); a failed slot — rejected (exception/timeout) or non-2xx — yields null
director, null directorId, empty cast and null revenue while the movie's id
and title are kept; and the now-playing staleness sort permutes the batch
output, so no item is dropped by the whole feed either. -/
theorem c1_enrichment_failure_isolation :
    (∀ (friday : String) (movies : List Tmdb.TMDBMovie)
        (outcomes : List Tmdb.CreditsOutcome),
      (Tmdb.fetchUpcomingFridayMovies friday movies outcomes).length = movies.length ∧
      ∀ i : Nat, (Tmdb.fetchUpcomingFridayMovies friday movies outcomes)[i]? =
        (movies[i]?).map (fun m => Tmdb.buildUpcomingMovie friday m
          ((outcomes[i]?).getD Tmdb.CreditsOutcome.exception))) ∧
    (∀ (movies : List Tmdb.TMDBMovie) (outcomes : List Tmdb.DetailOutcome),
      (Tmdb.nowPlayingResults movies outcomes).length = movies.length ∧
      ∀ i : Nat, (Tmdb.nowPlayingResults movies outcomes)[i]? =
        (movies[i]?).map (fun m => Tmdb.buildNowPlayingMovie m
          ((outcomes[i]?).getD Tmdb.DetailOutcome.exception))) ∧
    (∀ (friday : String) (m : Tmdb.TMDBMovie) (o : Tmdb.CreditsOutcome),
      (o = Tmdb.CreditsOutcome.exception ∨ o = Tmdb.CreditsOutcome.httpError) →
      (Tmdb.buildUpcomingMovie friday m o).director = none ∧
      (Tmdb.buildUpcomingMovie friday m o).directorId = none ∧
      (Tmdb.buildUpcomingMovie friday m o).cast = [] ∧
      (Tmdb.buildUpcomingMovie friday m o).revenue = none ∧
      (Tmdb.buildUpcomingMovie friday m o).id = m.id ∧
      (Tmdb.buildUpcomingMovie friday m o).title = m.title) ∧
    (∀ (m : Tmdb.TMDBMovie) (o : Tmdb.DetailOutcome),
      (o = Tmdb.DetailOutcome.exception ∨ o = Tmdb.DetailOutcome.httpError) →
      (Tmdb.buildNowPlayingMovie m o).director = none ∧
      (Tmdb.buildNowPlayingMovie m o).directorId = none ∧
      (Tmdb.buildNowPlayingMovie m o).cast = [] ∧
      (Tmdb.buildNowPlayingMovie m o).revenue = none ∧
      (Tmdb.buildNowPlayingMovie m o).id = m.id ∧
      (Tmdb.buildNowPlayingMovie m o).title = m.title) ∧
    (∀ (old : String → Bool) (l : List Tmdb.MovieRelease),
      List.Perm (Tmdb.sortNowPlaying old l) l) := by
  refine ⟨?_, ?_, ?_, ?_, ?_⟩
  · intro friday movies outcomes
    exact ⟨Tmdb.mapWithOutcomes_length _ _ movies outcomes,
      fun i => Tmdb.mapWithOutcomes_getElem? _ _ movies outcomes i⟩
  · intro movies outcomes
    exact ⟨Tmdb.mapWithOutcomes_length _ _ movies outcomes,
      fun i => Tmdb.mapWithOutcomes_getElem? _ _ movies outcomes i⟩
  · rintro friday m o (rfl | rfl) <;>
      exact ⟨rfl, rfl, rfl, rfl, rfl, rfl⟩
  · rintro m o (rfl | rfl) <;>
      exact ⟨rfl, rfl, rfl, rfl, rfl, rfl⟩
  · intro old l
    exact List.perm_insertionSort (Tmdb.nowPlayingLe old) l

/-- C6: six rateLimit acquisitions issued in immediate succession at instant
t0 complete at [t0, t0, t0, t0, t0, t0 + 1000]: the sixth does not complete
before 1000 ms after the first call's recorded timestamp (t0); the final
window shows the sixth's timestamp recorded at its completion instant, after
the wait; and, in general, an at-capacity call completes exactly when the
oldest pruned-window timestamp leaves the 1000 ms window, appending its
timestamp at that completion instant. -/
theorem c6_rate_limiter_sixth_call_waits (t0 : Int) :
    (RateLimit.runAcquires t0 6).1 = [t0, t0, t0, t0, t0, t0 + 1000] ∧
    (RateLimit.runAcquires t0 6).2 = [t0, t0, t0, t0, t0, t0 + 1000] ∧
    (∀ (now : Int) (ts : List Int), 5 ≤ (RateLimit.pruneWindow now ts).length →
      (RateLimit.rateLimit now ts).1 =
        now + ((RateLimit.pruneWindow now ts).headD 0 + 1000 - now) ∧
      (RateLimit.rateLimit now ts).2 =
        RateLimit.pruneWindow now ts ++ [(RateLimit.rateLimit now ts).1]) := by
  have hlt : ¬(t0 < t0 - 1000) := by omega
  refine ⟨?_, ?_, ?_⟩
  · simp [RateLimit.runAcquires, RateLimit.rateLimit, RateLimit.pruneWindow, hlt]
  · simp [RateLimit.runAcquires, RateLimit.rateLimit, RateLimit.pruneWindow, hlt]
  · intro now ts h
    simp only [RateLimit.rateLimit]
    rw [if_pos h]
    exact ⟨rfl, rfl⟩

/-- C7: a second artist-popularity lookup whose name lowercases to the same
cache key issues no upstream call, returns the first run's result and leaves
the cache unchanged; and a first run that misses the cache and fails
upstream returns (and caches) the null record, so repeated failures do not
retry. -/
theorem c7_artist_lookup_cached (upstream : String → Lastfm.UpstreamOutcome)
    (cache : List (String × Lastfm.ArtistInfo)) (a1 a2 : String)
    (hkey : a1.toLower = a2.toLower) :
    (Lastfm.fetchArtistInfo upstream
        (Lastfm.fetchArtistInfo upstream cache a1).2.1 a2).2.2 = false ∧
    (Lastfm.fetchArtistInfo upstream
        (Lastfm.fetchArtistInfo upstream cache a1).2.1 a2).1 =
      (Lastfm.fetchArtistInfo upstream cache a1).1 ∧
    (Lastfm.fetchArtistInfo upstream
        (Lastfm.fetchArtistInfo upstream cache a1).2.1 a2).2.1 =
      (Lastfm.fetchArtistInfo upstream cache a1).2.1 ∧
    (Lastfm.cacheGet cache a1.toLower = none →
      upstream a1 = Lastfm.UpstreamOutcome.failure →
      (Lastfm.fetchArtistInfo upstream cache a1).1 = Lastfm.nullResult) := by
  have hcached := Lastfm.fetchArtistInfo_caches upstream cache a1
  rw [hkey] at hcached
  have h2 := @Lastfm.fetchArtistInfo_hit upstream _ _ _ hcached
  refine ⟨by rw [h2], by rw [h2], by rw [h2], fun hmiss hfail => ?_⟩
  rw [Lastfm.fetchArtistInfo_miss_failure hmiss hfail]

/-- C7 witness: with an always-failing upstream and an empty cache, the
second lookup of the same artist name issues no upstream call. -/
theorem c7_artist_lookup_cached_witness :
    (Lastfm.fetchArtistInfo (fun _ => Lastfm.UpstreamOutcome.failure)
        (Lastfm.fetchArtistInfo (fun _ => Lastfm.UpstreamOutcome.failure) [] "Tool").2.1
        "Tool").2.2 = false :=
  (c7_artist_lookup_cached (fun _ => Lastfm.UpstreamOutcome.failure) [] "Tool" "Tool"
      rfl).1

end EasyBake
